import Mathlib

/-!
Verification of the node-dingtalk client SDK (zhennann/node-dingtalk).

The development shallowly embeds the two source files of the repository:

* `src/lib/api/message.js`, which holds the `Message` endpoint-wrapper class and
  the `Client` class (credential cache, request primitive, URL normalisation and
  JS API signing); and
* the `Callback` endpoint-wrapper class (`src/unnamed/part_000`).

Stateful JavaScript methods become pure Lean functions that take the relevant
piece of state (the stored token, the current clock value `Date.now()`, the
remote server's response) as explicit arguments and return, next to the value
the method returns, an explicit description of the side effects it performed:
the list of network fetches it issued and the credential it handed to the save
hook.  Thrown errors become explicit constructors.  JavaScript numbers holding
millisecond timestamps and second lifetimes are modelled as `Int`.
-/

set_option maxRecDepth 8192

namespace NodeDingtalk

/-! ## Credential cache (`Client.getAccessToken`, `Client.getJSApiTicket`) -/

/-- A stored access token, the shape `{ accessToken, expireTime }` that
`Client.getAccessToken` hands to the save hook (`message.js` line 497). -/
structure Token where
  accessToken : String
  expireTime : Int
deriving DecidableEq, Repr

/-- A stored jsapi ticket, the shape `{ ticket, expireTime }` that
`Client.getJSApiTicket` hands to the save hook (`message.js` line 523). -/
structure TicketToken where
  ticket : String
  expireTime : Int
deriving DecidableEq, Repr

/-- The successful body of the token-issuance endpoint: the fields
`access_token` and `expires_in` read at `message.js` lines 492-493. -/
structure TokenResponse where
  access_token : String
  expires_in : Int
deriving DecidableEq, Repr

/-- The successful body of the ticket-issuance endpoint: the fields
`ticket` and `expires_in` read at `message.js` lines 518-519. -/
structure TicketResponse where
  ticket : String
  expires_in : Int
deriving DecidableEq, Repr

/-- One remote fetch issued through `Client.get`: the api path and the query
parameters handed to it.  (`Client.get` prefixes the configured host and the
request primitive appends the parameters; both are transport plumbing outside
the claims.) -/
structure FetchCall where
  url : String
  params : List (String × String)
deriving DecidableEq, Repr

/-- Modelled from the spec: the `AccessToken` class lives in `./access-token`,
which is not part of the source snapshot; only its use
`(new AccessToken(token.accessToken, token.expireTime)).isValid()` appears at
`message.js` line 475.  Spec section 3: a Token is "considered valid while
current time is before expireTime". -/
def AccessToken.isValid (expireTime now : Int) : Bool :=
  decide (now < expireTime)

/-- Modelled from the spec: the `Ticket` class lives in `./ticket`, which is
not part of the source snapshot; only its use
`(new Ticket(ticketToken.ticket, ticketToken.expireTime)).isValid()` appears at
`message.js` line 512.  Spec section 3: a TicketToken has the "same shape as
Token", valid while current time is before expireTime. -/
def Ticket.isValid (expireTime now : Int) : Bool :=
  decide (now < expireTime)

/-- The observable outcome of one `getAccessToken()` call: the returned string,
the token passed to the save hook (`none` when the hook was not called), and
the remote fetches issued. -/
structure AccessTokenResult where
  returned : String
  saved : Option Token
  fetches : List FetchCall
deriving DecidableEq, Repr

/-- The refresh path of `Client.getAccessToken` (`message.js` lines 479-499):
choose the endpoint by the `sso` flag, fetch, compute
`expireTime = now + (expires_in - 10) * 1000`, save, return the fresh value. -/
def refreshAccessToken (appkey appsecret : String) (sso : Bool) (now : Int)
    (resp : TokenResponse) : AccessTokenResult :=
  let call : FetchCall :=
    if sso then
      { url := "sso/gettoken", params := [("corpid", appkey), ("corpsecret", appsecret)] }
    else
      { url := "gettoken", params := [("appkey", appkey), ("appsecret", appsecret)] }
  { returned := resp.access_token,
    saved := some { accessToken := resp.access_token,
                    expireTime := now + (resp.expires_in - 10) * 1000 },
    fetches := [call] }

/-- Embedding of `Client.getAccessToken` (`message.js` lines 472-500).
`stored` is what the `getToken` load hook returned, `now` is `Date.now()` at
the call, and `resp` is the body the token endpoint would answer on the
refresh path. -/
def getAccessToken (appkey appsecret : String) (sso : Bool)
    (stored : Option Token) (now : Int) (resp : TokenResponse) : AccessTokenResult :=
  match stored with
  | some token =>
    if AccessToken.isValid token.expireTime now then
      { returned := token.accessToken, saved := none, fetches := [] }
    else
      refreshAccessToken appkey appsecret sso now resp
  | none => refreshAccessToken appkey appsecret sso now resp

/-- The defaulting `type = type || 'jsapi'` at `message.js` line 509; the empty
string is falsy in JavaScript. -/
def effectiveType : Option String → String
  | none => "jsapi"
  | some t => if t = "" then "jsapi" else t

/-- The observable outcome of one `getJSApiTicket` call: the returned string,
the `(type, ticketToken)` pair passed to the save hook (`none` when the hook
was not called), and the remote fetches issued. -/
structure TicketResult where
  returned : String
  saved : Option (String × TicketToken)
  fetches : List FetchCall
deriving DecidableEq, Repr

/-- The refresh path of `Client.getJSApiTicket` (`message.js` lines 516-525). -/
def refreshTicket (ty : String) (now : Int) (resp : TicketResponse) : TicketResult :=
  { returned := resp.ticket,
    saved := some (ty, { ticket := resp.ticket,
                         expireTime := now + (resp.expires_in - 10) * 1000 }),
    fetches := [{ url := "get_jsapi_ticket", params := [("type", ty)] }] }

/-- Embedding of `Client.getJSApiTicket` (`message.js` lines 508-526).
`store` is the `getTicketToken` load hook, `now` is `Date.now()` at the call,
and `resp` is the body the ticket endpoint would answer on the refresh path. -/
def getJSApiTicket (typeArg : Option String) (store : String → Option TicketToken)
    (now : Int) (resp : TicketResponse) : TicketResult :=
  let ty := effectiveType typeArg
  match store ty with
  | some tt =>
    if Ticket.isValid tt.expireTime now then
      { returned := tt.ticket, saved := none, fetches := [] }
    else
      refreshTicket ty now resp
  | none => refreshTicket ty now resp

/-- Helper: an absent-or-expired stored token forces `getAccessToken` onto the
refresh path. -/
theorem getAccessToken_eq_refresh (appkey appsecret : String) (sso : Bool)
    (stored : Option Token) (now : Int) (resp : TokenResponse)
    (h : ∀ t, stored = some t → t.expireTime ≤ now) :
    getAccessToken appkey appsecret sso stored now resp
      = refreshAccessToken appkey appsecret sso now resp := by
  cases stored with
  | none => rfl
  | some t =>
    have ht : t.expireTime ≤ now := h t rfl
    simp [getAccessToken, AccessToken.isValid, not_lt.mpr ht]

/-- Helper: an absent-or-expired stored ticket forces `getJSApiTicket` onto the
refresh path. -/
theorem getJSApiTicket_eq_refresh (typeArg : Option String)
    (store : String → Option TicketToken) (now : Int) (resp : TicketResponse)
    (h : ∀ tt, store (effectiveType typeArg) = some tt → tt.expireTime ≤ now) :
    getJSApiTicket typeArg store now resp
      = refreshTicket (effectiveType typeArg) now resp := by
  cases hs : store (effectiveType typeArg) with
  | none => simp [getJSApiTicket, hs]
  | some tt =>
    have ht : tt.expireTime ≤ now := h tt hs
    simp [getJSApiTicket, hs, Ticket.isValid, not_lt.mpr ht]

/-- C1: an expired (or absent) stored credential is never returned by
`getAccessToken()` or `getJSApiTicket(type)`: under `now ≥ expireTime` on the
stored entry, both methods issue a refresh fetch, save the fresh credential,
and return the freshly fetched value, not the stored one. -/
theorem expired_credential_never_returned
    (appkey appsecret : String) (sso : Bool) (stored : Option Token) (now : Int)
    (resp : TokenResponse) (typeArg : Option String)
    (store : String → Option TicketToken) (tresp : TicketResponse)
    (h1 : ∀ t, stored = some t → t.expireTime ≤ now)
    (h2 : ∀ tt, store (effectiveType typeArg) = some tt → tt.expireTime ≤ now) :
    ((getAccessToken appkey appsecret sso stored now resp).fetches ≠ []
      ∧ (getAccessToken appkey appsecret sso stored now resp).returned = resp.access_token
      ∧ (getAccessToken appkey appsecret sso stored now resp).saved
          = some { accessToken := resp.access_token,
                   expireTime := now + (resp.expires_in - 10) * 1000 })
    ∧ ((getJSApiTicket typeArg store now tresp).fetches ≠ []
      ∧ (getJSApiTicket typeArg store now tresp).returned = tresp.ticket
      ∧ (getJSApiTicket typeArg store now tresp).saved
          = some (effectiveType typeArg,
                  { ticket := tresp.ticket,
                    expireTime := now + (tresp.expires_in - 10) * 1000 })) := by
  rw [getAccessToken_eq_refresh appkey appsecret sso stored now resp h1,
      getJSApiTicket_eq_refresh typeArg store now tresp h2]
  cases sso <;> simp [refreshAccessToken, refreshTicket]

/-- Witness for C1: both hypotheses hold at a concrete expired store
(`expireTime = 40 ≤ now = 40`), and the theorem applies there. -/
theorem expired_credential_never_returned_witness :
    ((getAccessToken "k" "s" false (some { accessToken := "old", expireTime := 40 }) 40
        { access_token := "new", expires_in := 7200 }).fetches ≠ []
      ∧ (getAccessToken "k" "s" false (some { accessToken := "old", expireTime := 40 }) 40
          { access_token := "new", expires_in := 7200 }).returned = "new"
      ∧ (getAccessToken "k" "s" false (some { accessToken := "old", expireTime := 40 }) 40
          { access_token := "new", expires_in := 7200 }).saved
          = some { accessToken := "new", expireTime := 7190040 })
    ∧ ((getJSApiTicket none (fun _ => none) 40 { ticket := "tick", expires_in := 7200 }).fetches ≠ []
      ∧ (getJSApiTicket none (fun _ => none) 40 { ticket := "tick", expires_in := 7200 }).returned = "tick"
      ∧ (getJSApiTicket none (fun _ => none) 40 { ticket := "tick", expires_in := 7200 }).saved
          = some ("jsapi", { ticket := "tick", expireTime := 7190040 })) :=
  expired_credential_never_returned "k" "s" false
    (some { accessToken := "old", expireTime := 40 }) 40
    { access_token := "new", expires_in := 7200 } none (fun _ => none)
    { ticket := "tick", expires_in := 7200 }
    (by intro t ht; cases ht; decide)
    (by intro tt ht; cases ht)

/-- C2: a stored token whose `expireTime` is strictly in the future is returned
as is: no fetch is issued and the save hook is not called, so the backing
store is untouched. -/
theorem getAccessToken_valid_cached (appkey appsecret : String) (sso : Bool)
    (t : Token) (now : Int) (resp : TokenResponse)
    (h : now < t.expireTime) :
    getAccessToken appkey appsecret sso (some t) now resp
      = { returned := t.accessToken, saved := none, fetches := [] } := by
  simp [getAccessToken, AccessToken.isValid, h]

/-- Witness for C2: the hypothesis `5 < 100` holds and the theorem applies at a
concrete stored token. -/
theorem getAccessToken_valid_cached_witness :
    getAccessToken "k" "s" true (some { accessToken := "tok", expireTime := 100 }) 5
        { access_token := "fresh", expires_in := 7200 }
      = { returned := "tok", saved := none, fetches := [] } :=
  getAccessToken_valid_cached "k" "s" true { accessToken := "tok", expireTime := 100 } 5
    { access_token := "fresh", expires_in := 7200 } (by decide)

/-- C3: on an absent or expired stored token, `getAccessToken()` issues exactly
one fetch, to `sso/gettoken` or `gettoken` depending on the `sso` flag, saves a
token whose `expireTime` is `now + (expires_in - 10) * 1000`, and returns the
fetched value. -/
theorem getAccessToken_refresh_spec (appkey appsecret : String) (sso : Bool)
    (stored : Option Token) (now : Int) (resp : TokenResponse)
    (h : ∀ t, stored = some t → t.expireTime ≤ now) :
    getAccessToken appkey appsecret sso stored now resp
      = { returned := resp.access_token,
          saved := some { accessToken := resp.access_token,
                          expireTime := now + (resp.expires_in - 10) * 1000 },
          fetches := [ if sso then
                         { url := "sso/gettoken",
                           params := [("corpid", appkey), ("corpsecret", appsecret)] }
                       else
                         { url := "gettoken",
                           params := [("appkey", appkey), ("appsecret", appsecret)] } ] } := by
  rw [getAccessToken_eq_refresh appkey appsecret sso stored now resp h]
  rfl

/-- Witness for C3: the hypothesis holds at a concrete expired token and the
theorem applies there, in the non-sso configuration. -/
theorem getAccessToken_refresh_spec_witness :
    getAccessToken "k" "s" false (some { accessToken := "old", expireTime := 50 }) 50
        { access_token := "new", expires_in := 7200 }
      = { returned := "new",
          saved := some { accessToken := "new", expireTime := 7190050 },
          fetches := [{ url := "gettoken", params := [("appkey", "k"), ("appsecret", "s")] }] } :=
  getAccessToken_refresh_spec "k" "s" false (some { accessToken := "old", expireTime := 50 }) 50
    { access_token := "new", expires_in := 7200 }
    (by intro t ht; cases ht; decide)

/-! ## Response envelope handling (`Client.request`, lines 242-259) -/

/-- A JSON response body as the envelope check sees it: the numeric `errcode`
field may be absent (`none` models JavaScript `undefined`), and the rest of the
body is carried so that "data equals the full response body" is expressible. -/
structure RespBody where
  errcode : Option Int
  errmsg : String
  extra : List (String × String)
deriving DecidableEq, Repr

/-- The transport-level response object: `data` is `none` when `response.data`
is falsy (no parsed body). -/
structure HttpResponse where
  status : Int
  data : Option RespBody
deriving DecidableEq, Repr

/-- What `Client.request` does after the transport returned: return the body,
return the whole response object, or throw a `DingTalkClientResponseError`
carrying `err.code = result.errcode` and `err.data = result`. -/
inductive RequestOutcome where
  | ok (result : RespBody)
  | whole (response : HttpResponse)
  | clientError (code : Option Int) (data : RespBody)
deriving DecidableEq, Repr

/-- Embedding of the response-envelope portion of `Client.request`
(`message.js` lines 242-259): `if (result) { if (result.errcode !== 0) throw
err; else return result; } else { return response; }` where
`err.code = result.errcode` and `err.data = result`.  The strict inequality
`result.errcode !== 0` is true when `errcode` is absent. -/
def request (response : HttpResponse) : RequestOutcome :=
  match response.data with
  | some result =>
    if result.errcode ≠ some 0 then
      RequestOutcome.clientError result.errcode result
    else
      RequestOutcome.ok result
  | none => RequestOutcome.whole response

/-- C8: a body whose numeric `errcode` is non-zero surfaces as a
`DingTalkClientResponseError` whose `code` equals that value and whose `data`
is the full body; a body with `errcode = 0` is returned unchanged. -/
theorem request_errcode_envelope (r : HttpResponse) (b : RespBody)
    (hd : r.data = some b) :
    (∀ c : Int, b.errcode = some c → c ≠ 0 →
        request r = RequestOutcome.clientError (some c) b)
    ∧ (b.errcode = some 0 → request r = RequestOutcome.ok b) := by
  constructor
  · intro c hc hnz
    simp [request, hd, hc, hnz]
  · intro hc
    simp [request, hd, hc]

/-- Witness for C8: a concrete response with `errcode = 1` satisfies the
hypotheses and the theorem yields the tagged error carrying code 1 and the
full body. -/
theorem request_errcode_envelope_witness :
    request { status := 200, data := some { errcode := some 1, errmsg := "bad", extra := [] } }
      = RequestOutcome.clientError (some 1)
          { errcode := some 1, errmsg := "bad", extra := [] } :=
  (request_errcode_envelope
      { status := 200, data := some { errcode := some 1, errmsg := "bad", extra := [] } }
      { errcode := some 1, errmsg := "bad", extra := [] } rfl).1 1 rfl (by decide)

/-- C10: a truthy body with `errcode` absent still throws the
`DingTalkClientResponseError` (the success test is `errcode !== 0`, and
`undefined !== 0` holds), with `code` the absent value; a falsy body makes the
primitive return the whole response object. -/
theorem request_undefined_errcode_and_falsy_body (r : HttpResponse) :
    (∀ b : RespBody, r.data = some b → b.errcode = none →
        request r = RequestOutcome.clientError none b)
    ∧ (r.data = none → request r = RequestOutcome.whole r) := by
  constructor
  · intro b hd hc
    simp [request, hd, hc]
  · intro hd
    simp [request, hd]

/-- Witness for C10: a concrete body with no `errcode` field throws with
`code` absent, and a concrete body-less response is returned whole. -/
theorem request_undefined_errcode_and_falsy_body_witness :
    request { status := 200, data := some { errcode := none, errmsg := "", extra := [("ticket", "T")] } }
        = RequestOutcome.clientError none
            { errcode := none, errmsg := "", extra := [("ticket", "T")] }
    ∧ request { status := 404, data := none }
        = RequestOutcome.whole { status := 404, data := none } :=
  ⟨(request_undefined_errcode_and_falsy_body
        { status := 200, data := some { errcode := none, errmsg := "", extra := [("ticket", "T")] } }).1
      { errcode := none, errmsg := "", extra := [("ticket", "T")] } rfl rfl,
   (request_undefined_errcode_and_falsy_body { status := 404, data := none }).2 rfl⟩

/-! ## Endpoint wrappers (`Message.send`, `Callback.register_call_back`) -/

/-- JavaScript property access `opts[k]` on a string-valued options object. -/
def jsGet (opts : List (String × String)) (k : String) : Option String :=
  (opts.find? (fun p => p.1 == k)).map (fun p => p.2)

/-- JavaScript truthiness of `opts[k]` for string-valued fields: present and
not the empty string. -/
def truthy (opts : List (String × String)) (k : String) : Bool :=
  match jsGet opts k with
  | some v => !(v == "")
  | none => false

/-- What a wrapper method call does: fail a synchronous `assert` (rejecting
before any network activity), or reach the network through `client.post` /
`client.get` with the given api path and options. -/
inductive CallResult where
  | assertError (msg : String)
  | networkPost (api : String) (opts : List (String × String))
  | networkGet (api : String) (opts : List (String × String))
deriving DecidableEq, Repr

/-- True exactly on the synchronous-rejection outcome. -/
def CallResult.isAssertError : CallResult → Bool
  | CallResult.assertError _ => true
  | _ => false

/-- Embedding of `Message.send` (`Message` class, lines 29-35): four `assert`
calls in order, then `client.post('message/send', opts)`.  The message-body
field `opts[opts.msgtype]` is modelled through the same string-valued options
object. -/
def Message.send (opts : List (String × String)) : CallResult :=
  if !(truthy opts "touser" || truthy opts "toparty") then
    CallResult.assertError "options touser or toparty required"
  else if !(truthy opts "msgtype") then
    CallResult.assertError "options.msgtype required"
  else if !(truthy opts "agentid") then
    CallResult.assertError "options.agentid required"
  else if !(truthy opts ((jsGet opts "msgtype").getD "")) then
    CallResult.assertError ("options." ++ (jsGet opts "msgtype").getD "" ++ " required")
  else
    CallResult.networkPost "message/send" opts

/-- Embedding of `Callback.register_call_back` (`src/unnamed/part_000` lines
13-15): the body is a single `client.get` call with no validation of `opts`. -/
def Callback.register_call_back (opts : List (String × String)) : CallResult :=
  CallResult.networkGet "call_back/register_call_back" opts

/-- C9 counterexample: calling the callback wrapper with empty options — every
required field of the remote endpoint missing — does not reject; it goes
straight to the network, refuting validation-before-network for "any business
endpoint wrapper, including the callback wrappers". -/
theorem register_call_back_skips_validation :
    Callback.register_call_back [] = CallResult.networkGet "call_back/register_call_back" [] :=
  rfl

/-- C9 (amended): when any of the fields `Message.send` requires is missing,
the call rejects synchronously via `assert`, before the network call; the
callback wrappers, by contrast, perform no validation and always forward the
options to the network. -/
theorem message_send_validates_callback_does_not (opts : List (String × String))
    (h : ((truthy opts "touser" || truthy opts "toparty")
            && truthy opts "msgtype" && truthy opts "agentid"
            && truthy opts ((jsGet opts "msgtype").getD "")) = false) :
    CallResult.isAssertError (Message.send opts) = true
    ∧ Callback.register_call_back opts
        = CallResult.networkGet "call_back/register_call_back" opts := by
  refine ⟨?_, rfl⟩
  cases h1 : truthy opts "touser" <;> cases h2 : truthy opts "toparty" <;>
    cases h3 : truthy opts "msgtype" <;> cases h4 : truthy opts "agentid" <;>
    cases h5 : truthy opts ((jsGet opts "msgtype").getD "") <;>
    simp [h1, h2, h3, h4, h5] at h ⊢ <;>
    simp [Message.send, CallResult.isAssertError, h1, h2, h3, h4, h5]

/-- Witness for C9 (amended): options carrying `touser` and `agentid` but no
`msgtype` satisfy the hypothesis; `Message.send` rejects there while the
callback wrapper still reaches the network. -/
theorem message_send_validates_callback_does_not_witness :
    CallResult.isAssertError (Message.send [("touser", "u"), ("agentid", "1")]) = true
    ∧ Callback.register_call_back [("touser", "u"), ("agentid", "1")]
        = CallResult.networkGet "call_back/register_call_back" [("touser", "u"), ("agentid", "1")] :=
  message_send_validates_callback_does_not [("touser", "u"), ("agentid", "1")] (by decide)

/-! ## URL normalisation (`Client._normalizeUrl`, lines 537-549)

The source leans on the Node `url` and `querystring` libraries:
`Url.parse(url, true)` splits off the fragment (everything from the first
`#`), then the search string (everything from the following first `?`), and
parses the search string into decoded key/value pairs (splitting on `&`, each
segment on its first `=`, percent-decoding and turning `+` into a space,
collecting duplicate keys into arrays).  `Url.format` on the object with
`hash`, `query` and `search` deleted reproduces the part before the search
string, and the decoded pairs are re-appended as `key=value` joined by `&`
(an array value stringifies as its elements joined by `,`).  That pipeline is
embedded below on `List Char`; the pre-query part passes through untouched,
and multi-byte percent-escapes decode bytewise. -/

/-- Split at the first occurrence of `c`: the part before it, and `some` the
part after it when `c` occurs. -/
def breakAtChar (c : Char) : List Char → List Char × Option (List Char)
  | [] => ([], none)
  | x :: xs =>
    if x = c then ([], some xs)
    else
      let p := breakAtChar c xs
      (x :: p.1, p.2)

/-- Split on every occurrence of the separator, accumulating the current
segment in reverse. -/
def splitSepAux (c : Char) : List Char → List Char → List (List Char)
  | [], acc => [acc.reverse]
  | x :: xs, acc =>
    if x = c then acc.reverse :: splitSepAux c xs []
    else splitSepAux c xs (x :: acc)

/-- All segments of the list between occurrences of the separator. -/
def splitSep (c : Char) (l : List Char) : List (List Char) :=
  splitSepAux c l []

/-- Join segments with the separator character between them. -/
def joinSep (c : Char) : List (List Char) → List Char
  | [] => []
  | [s] => s
  | s :: ss => s ++ c :: joinSep c ss

/-- The numeric value of a hexadecimal digit. -/
def hexVal (c : Char) : Option Nat :=
  if '0' ≤ c ∧ c ≤ '9' then some (c.toNat - 48)
  else if 'A' ≤ c ∧ c ≤ 'F' then some (c.toNat - 55)
  else if 'a' ≤ c ∧ c ≤ 'f' then some (c.toNat - 87)
  else none

/-- Percent-decoding as the Node querystring decoder behaves on key and value
segments: `+` becomes a space, a valid `%XY` escape becomes the character with
code `XY`, and an invalid escape is left in place. -/
def pctDecodeAux : Nat → List Char → List Char
  | _, [] => []
  | 0, l => l
  | fuel + 1, c :: rest =>
    if c = '+' then ' ' :: pctDecodeAux fuel rest
    else if c = '%' then
      match rest with
      | a :: b :: rest2 =>
        match hexVal a, hexVal b with
        | some ha, some hb => Char.ofNat (16 * ha + hb) :: pctDecodeAux fuel rest2
        | _, _ => c :: pctDecodeAux fuel (a :: b :: rest2)
      | [a] => c :: pctDecodeAux fuel [a]
      | [] => [c]
    else c :: pctDecodeAux fuel rest

/-- Percent-decoding of a segment; the fuel `l.length` bounds the number of
emitted characters, each step consuming at least one input character. -/
def pctDecode (l : List Char) : List Char :=
  pctDecodeAux l.length l

/-- Parse one `&`-separated segment: an empty segment yields no pair, otherwise
the part before the first `=` is the key and the rest (empty when there is no
`=`) is the value, both decoded. -/
def parseSeg (seg : List Char) : Option (List Char × List Char) :=
  match seg with
  | [] => none
  | _ :: _ =>
    let p := breakAtChar '=' seg
    some (pctDecode p.1, pctDecode (p.2.getD []))

/-- Fold a parsed pair into the accumulated query object: a repeated key
collects into an array, which later stringifies with `,` between the
elements; a new key is appended in insertion order. -/
def addPair (acc : List (List Char × List Char)) (p : List Char × List Char) :
    List (List Char × List Char) :=
  if acc.any (fun q => q.1 == p.1) then
    acc.map (fun q => if q.1 == p.1 then (q.1, q.2 ++ ',' :: p.2) else q)
  else acc ++ [p]

/-- Collapse duplicate keys the way the query object does. -/
def mergeDups (l : List (List Char × List Char)) : List (List Char × List Char) :=
  l.foldl addPair []

/-- The decoded key/value pairs of a search string, duplicate keys merged,
in the order `Object.keys` yields them. -/
def qsPairs (q : List Char) : List (List Char × List Char) :=
  mergeDups ((splitSep '&' q).filterMap parseSeg)

/-- The query pairs `Url.parse(url, true).query` exposes for this url: nothing
when there is no `?` before the fragment, otherwise the parsed search string. -/
def rawQueryPairs (l : List Char) : List (List Char × List Char) :=
  match (breakAtChar '?' ((breakAtChar '#' l).1)).2 with
  | none => []
  | some q => qsPairs q

/-- Embedding of `Client._normalizeUrl` (`message.js` lines 537-549) at the
character level: the part before the search string (fragment dropped), then
`?` and the decoded pairs re-joined as `key=value` with `&`, when any. -/
def normChars (l : List Char) : List Char :=
  (breakAtChar '?' ((breakAtChar '#' l).1)).1
    ++ (if joinSep '&' ((rawQueryPairs l).map (fun kv => kv.1 ++ '=' :: kv.2)) = [] then []
        else '?' :: joinSep '&' ((rawQueryPairs l).map (fun kv => kv.1 ++ '=' :: kv.2)))

/-- Embedding of `Client._normalizeUrl` on strings. -/
def normalizeUrl (u : String) : String :=
  String.mk (normChars u.data)

/-- The decoded, duplicate-merged query pairs of a url string. -/
def urlQueryPairs (u : String) : List (List Char × List Char) :=
  rawQueryPairs u.data

/-- A decoded query key that survives re-parsing: none of the characters the
second parse treats specially (`&` `#` `%` `+`, and `=` which would split the
key). -/
def safeKey (k : List Char) : Bool :=
  k.all (fun x => !(x == '&') && !(x == '#') && !(x == '%') && !(x == '+') && !(x == '='))

/-- A decoded query value that survives re-parsing: none of `&` `#` `%` `+`
(a value may contain `=`, since a segment splits only at its first `=`). -/
def safeVal (v : List Char) : Bool :=
  v.all (fun x => !(x == '&') && !(x == '#') && !(x == '%') && !(x == '+'))

theorem safeKey_spec {k : List Char} (h : safeKey k = true) :
    ∀ x ∈ k, x ≠ '&' ∧ x ≠ '#' ∧ x ≠ '%' ∧ x ≠ '+' ∧ x ≠ '=' := by
  intro x hx
  have hh := List.all_eq_true.mp h x hx
  simp only [Bool.and_eq_true, Bool.not_eq_true', beq_eq_false_iff_ne] at hh
  exact ⟨hh.1.1.1.1, hh.1.1.1.2, hh.1.1.2, hh.1.2, hh.2⟩

theorem safeVal_spec {v : List Char} (h : safeVal v = true) :
    ∀ x ∈ v, x ≠ '&' ∧ x ≠ '#' ∧ x ≠ '%' ∧ x ≠ '+' := by
  intro x hx
  have hh := List.all_eq_true.mp h x hx
  simp only [Bool.and_eq_true, Bool.not_eq_true', beq_eq_false_iff_ne] at hh
  exact ⟨hh.1.1.1, hh.1.1.2, hh.1.2, hh.2⟩

theorem breakAtChar_of_not_mem (c : Char) (l : List Char) (h : c ∉ l) :
    breakAtChar c l = (l, none) := by
  induction l with
  | nil => rfl
  | cons x xs ih =>
    rw [List.mem_cons, not_or] at h
    have hx : ¬ x = c := fun he => h.1 he.symm
    simp [breakAtChar, hx, ih h.2]

theorem breakAtChar_append (c : Char) (a b : List Char) (h : c ∉ a) :
    breakAtChar c (a ++ c :: b) = (a, some b) := by
  induction a with
  | nil => simp [breakAtChar]
  | cons x xs ih =>
    rw [List.mem_cons, not_or] at h
    have hx : ¬ x = c := fun he => h.1 he.symm
    simp [breakAtChar, hx, ih h.2]

theorem breakAtChar_fst_subset (c x : Char) (l : List Char)
    (h : x ∈ (breakAtChar c l).1) : x ∈ l := by
  induction l with
  | nil => simp [breakAtChar] at h
  | cons y ys ih =>
    by_cases hy : y = c
    · simp [breakAtChar, hy] at h
    · simp only [breakAtChar, hy, if_false, List.mem_cons] at h
      rcases h with h | h
      · exact h ▸ List.mem_cons_self y ys
      · exact List.mem_cons_of_mem _ (ih h)

theorem breakAtChar_fst_not_mem (c : Char) (l : List Char) :
    c ∉ (breakAtChar c l).1 := by
  induction l with
  | nil => simp [breakAtChar]
  | cons y ys ih =>
    by_cases hy : y = c
    · simp [breakAtChar, hy]
    · simp only [breakAtChar, hy, if_false, List.mem_cons, not_or]
      exact ⟨fun he => hy he.symm, ih⟩

theorem splitSepAux_append (c : Char) (a : List Char) :
    ∀ (l acc : List Char), c ∉ a →
      splitSepAux c (a ++ l) acc = splitSepAux c l (a.reverse ++ acc) := by
  induction a with
  | nil => intro l acc _; rfl
  | cons x xs ih =>
    intro l acc h
    rw [List.mem_cons, not_or] at h
    have hx : ¬ x = c := fun he => h.1 he.symm
    show splitSepAux c (x :: (xs ++ l)) acc = _
    simp only [splitSepAux, hx, if_false]
    rw [ih l (x :: acc) h.2]
    congr 1
    simp

theorem splitSepAux_no_sep (c : Char) :
    ∀ (s acc : List Char), c ∉ s → splitSepAux c s acc = [acc.reverse ++ s] := by
  intro s
  induction s with
  | nil => intro acc _; simp [splitSepAux]
  | cons x xs ih =>
    intro acc h
    rw [List.mem_cons, not_or] at h
    have hx : ¬ x = c := fun he => h.1 he.symm
    simp only [splitSepAux, hx, if_false]
    rw [ih (x :: acc) h.2]
    simp

theorem splitSep_joinSep (c : Char) :
    ∀ (segs : List (List Char)), segs ≠ [] → (∀ s ∈ segs, c ∉ s) →
      splitSep c (joinSep c segs) = segs := by
  intro segs
  induction segs with
  | nil => intro h _; exact absurd rfl h
  | cons s ss ih =>
    intro _ hmem
    have hs : c ∉ s := hmem s (List.mem_cons_self s ss)
    cases ss with
    | nil =>
      show splitSep c (joinSep c [s]) = [s]
      rw [show joinSep c [s] = s from rfl]
      unfold splitSep
      rw [splitSepAux_no_sep c s [] hs]
      simp
    | cons s2 rest =>
      have hmem2 : ∀ t ∈ s2 :: rest, c ∉ t := fun t ht => hmem t (List.mem_cons_of_mem _ ht)
      have hJ := ih (List.cons_ne_nil s2 rest) hmem2
      show splitSep c (joinSep c (s :: s2 :: rest)) = s :: s2 :: rest
      rw [show joinSep c (s :: s2 :: rest) = s ++ c :: joinSep c (s2 :: rest) from rfl]
      unfold splitSep
      rw [splitSepAux_append c s (c :: joinSep c (s2 :: rest)) [] hs]
      simp only [splitSepAux, eq_self_iff_true, if_true, List.append_nil,
        List.reverse_reverse]
      exact congrArg (s :: ·) hJ

theorem pctDecodeAux_of_safe :
    ∀ (fuel : Nat) (l : List Char), l.length ≤ fuel →
      (∀ x ∈ l, x ≠ '%' ∧ x ≠ '+') → pctDecodeAux fuel l = l := by
  intro fuel
  induction fuel with
  | zero =>
    intro l hl _
    cases l with
    | nil => rfl
    | cons c rest => simp at hl
  | succ n ih =>
    intro l hl h
    cases l with
    | nil => rfl
    | cons c rest =>
      have hc := h c (List.mem_cons_self c rest)
      have hrest : ∀ x ∈ rest, x ≠ '%' ∧ x ≠ '+' :=
        fun x hx => h x (List.mem_cons_of_mem _ hx)
      have hlen : rest.length ≤ n := by
        simp only [List.length_cons] at hl
        omega
      simp [pctDecodeAux, hc.1, hc.2, ih rest hlen hrest]

theorem pctDecode_of_safe (l : List Char) (h : ∀ x ∈ l, x ≠ '%' ∧ x ≠ '+') :
    pctDecode l = l :=
  pctDecodeAux_of_safe l.length l (Nat.le_refl _) h

theorem append_cons_ne_nil (k : List Char) (c : Char) (v : List Char) :
    k ++ c :: v ≠ [] := by
  cases k <;> simp

theorem parseSeg_ne_nil (l : List Char) (h : l ≠ []) :
    parseSeg l = some (pctDecode (breakAtChar '=' l).1,
                       pctDecode ((breakAtChar '=' l).2.getD [])) := by
  cases l with
  | nil => exact absurd rfl h
  | cons a rest => rfl

theorem parseSeg_pair (k v : List Char)
    (hkeq : '=' ∉ k)
    (hk : ∀ x ∈ k, x ≠ '%' ∧ x ≠ '+')
    (hv : ∀ x ∈ v, x ≠ '%' ∧ x ≠ '+') :
    parseSeg (k ++ '=' :: v) = some (k, v) := by
  rw [parseSeg_ne_nil _ (append_cons_ne_nil k '=' v),
      breakAtChar_append '=' k v hkeq]
  simp [pctDecode_of_safe k hk, pctDecode_of_safe v hv]

theorem filterMap_parseSeg (pairs : List (List Char × List Char))
    (h : ∀ p ∈ pairs, safeKey p.1 = true ∧ safeVal p.2 = true) :
    List.filterMap (fun kv => parseSeg (kv.1 ++ '=' :: kv.2)) pairs = pairs := by
  induction pairs with
  | nil => rfl
  | cons p ps ih =>
    have hp := h p (List.mem_cons_self p ps)
    have hps : ∀ q ∈ ps, safeKey q.1 = true ∧ safeVal q.2 = true :=
      fun q hq => h q (List.mem_cons_of_mem _ hq)
    have hk := safeKey_spec hp.1
    have hv := safeVal_spec hp.2
    have hseg : parseSeg (p.1 ++ '=' :: p.2) = some (p.1, p.2) :=
      parseSeg_pair p.1 p.2
        (fun hm => ((hk '=' hm).2.2.2.2) rfl)
        (fun x hx => ⟨(hk x hx).2.2.1, (hk x hx).2.2.2.1⟩)
        (fun x hx => ⟨(hv x hx).2.2.1, (hv x hx).2.2.2⟩)
    simp [List.filterMap_cons, hseg, ih hps]

theorem addPair_pairwise (acc : List (List Char × List Char))
    (p : List Char × List Char)
    (h : acc.Pairwise (fun a b => a.1 ≠ b.1)) :
    (addPair acc p).Pairwise (fun a b => a.1 ≠ b.1) := by
  unfold addPair
  by_cases hany : acc.any (fun q => q.1 == p.1) = true
  · rw [if_pos hany, List.pairwise_map]
    have hg : ∀ q : List Char × List Char,
        (if q.1 == p.1 then (q.1, q.2 ++ ',' :: p.2) else q).1 = q.1 := by
      intro q
      by_cases hq : (q.1 == p.1) = true <;> simp [hq]
    exact h.imp (fun {a b} hab => by
      rw [hg a, hg b]
      exact hab)
  · rw [if_neg hany]
    have hcross : ∀ a ∈ acc, a.1 ≠ p.1 := by
      intro a ha he
      exact hany (List.any_eq_true.mpr ⟨a, ha, by simp [he]⟩)
    rw [List.pairwise_append]
    refine ⟨h, List.pairwise_singleton _ _, ?_⟩
    intro a ha b hb
    rcases List.mem_singleton.mp hb with rfl
    exact hcross a ha

theorem foldl_addPair_pairwise :
    ∀ (l acc : List (List Char × List Char)),
      acc.Pairwise (fun a b => a.1 ≠ b.1) →
      (l.foldl addPair acc).Pairwise (fun a b => a.1 ≠ b.1) := by
  intro l
  induction l with
  | nil => intro acc h; exact h
  | cons p ps ih => intro acc h; exact ih (addPair acc p) (addPair_pairwise acc p h)

theorem mergeDups_keysDistinct (l : List (List Char × List Char)) :
    (mergeDups l).Pairwise (fun a b => a.1 ≠ b.1) :=
  foldl_addPair_pairwise l [] List.Pairwise.nil

theorem foldl_addPair_of_distinct :
    ∀ (l acc : List (List Char × List Char)),
      ((acc ++ l).Pairwise (fun a b => a.1 ≠ b.1)) →
      l.foldl addPair acc = acc ++ l := by
  intro l
  induction l with
  | nil => intro acc _; simp
  | cons p ps ih =>
    intro acc h
    have hcross : ∀ a ∈ acc, a.1 ≠ p.1 := by
      intro a ha
      exact (List.pairwise_append.mp h).2.2 a ha p (List.mem_cons_self p ps)
    have hany : acc.any (fun q => q.1 == p.1) = false := by
      rw [List.any_eq_false]
      intro a ha
      simp [hcross a ha]
    have hstep : addPair acc p = acc ++ [p] := by
      unfold addPair
      rw [hany]
      simp
    have h' : ((acc ++ [p]) ++ ps).Pairwise (fun a b => a.1 ≠ b.1) := by
      simpa using h
    rw [List.foldl_cons, hstep, ih (acc ++ [p]) h']
    simp

theorem mergeDups_of_distinct (l : List (List Char × List Char))
    (h : l.Pairwise (fun a b => a.1 ≠ b.1)) : mergeDups l = l :=
  foldl_addPair_of_distinct l [] (by simpa using h)

theorem rawQueryPairs_distinct (l : List Char) :
    (rawQueryPairs l).Pairwise (fun a b => a.1 ≠ b.1) := by
  cases hs : (breakAtChar '?' ((breakAtChar '#' l).1)).2 with
  | none => simp only [rawQueryPairs, hs]; exact List.Pairwise.nil
  | some q => simp only [rawQueryPairs, hs]; exact mergeDups_keysDistinct _

theorem qsPairs_roundtrip (pairs : List (List Char × List Char))
    (hd : pairs.Pairwise (fun a b => a.1 ≠ b.1))
    (h : ∀ p ∈ pairs, safeKey p.1 = true ∧ safeVal p.2 = true)
    (hne : pairs ≠ []) :
    qsPairs (joinSep '&' (pairs.map (fun kv => kv.1 ++ '=' :: kv.2))) = pairs := by
  unfold qsPairs
  have hsegs : ∀ s ∈ pairs.map (fun kv => kv.1 ++ '=' :: kv.2), '&' ∉ s := by
    intro s hsmem
    rcases List.mem_map.mp hsmem with ⟨kv, hkv, rfl⟩
    intro hmem
    rcases List.mem_append.mp hmem with hkm | hvm
    · exact ((safeKey_spec (h kv hkv).1) '&' hkm).1 rfl
    · rcases List.mem_cons.mp hvm with he | hv2
      · exact absurd he (by decide)
      · exact ((safeVal_spec (h kv hkv).2) '&' hv2).1 rfl
  rw [splitSep_joinSep '&' _ (by simpa using hne) hsegs, List.filterMap_map]
  rw [show (parseSeg ∘ fun kv : List Char × List Char => kv.1 ++ '=' :: kv.2)
        = (fun kv : List Char × List Char => parseSeg (kv.1 ++ '=' :: kv.2)) from rfl]
  rw [filterMap_parseSeg pairs h]
  exact mergeDups_of_distinct pairs hd

theorem mem_joinSep (c x : Char) :
    ∀ (segs : List (List Char)), x ∈ joinSep c segs → x = c ∨ ∃ s ∈ segs, x ∈ s := by
  intro segs
  induction segs with
  | nil => intro h; simp [joinSep] at h
  | cons s ss ih =>
    intro h
    cases ss with
    | nil =>
      right
      exact ⟨s, List.mem_cons_self s [], by simpa [joinSep] using h⟩
    | cons s2 rest =>
      rw [show joinSep c (s :: s2 :: rest) = s ++ c :: joinSep c (s2 :: rest) from rfl] at h
      rcases List.mem_append.mp h with hs | htail
      · right; exact ⟨s, List.mem_cons_self s _, hs⟩
      · rcases List.mem_cons.mp htail with rfl | hrest
        · left; rfl
        · rcases ih hrest with hc | ⟨t, ht, hxt⟩
          · left; exact hc
          · right; exact ⟨t, List.mem_cons_of_mem _ ht, hxt⟩

theorem joinSep_ne_nil (c : Char) (s : List Char) (ss : List (List Char))
    (h : s ≠ []) : joinSep c (s :: ss) ≠ [] := by
  cases ss with
  | nil => simpa [joinSep] using h
  | cons s2 rest =>
    rw [show joinSep c (s :: s2 :: rest) = s ++ c :: joinSep c (s2 :: rest) from rfl]
    exact append_cons_ne_nil s c _

/-- A string with neither fragment nor search part is a fixed point of the
normalisation. -/
theorem normChars_no_query (s : List Char) (h1 : '#' ∉ s) (h2 : '?' ∉ s) :
    normChars s = s := by
  unfold normChars rawQueryPairs
  rw [breakAtChar_of_not_mem '#' s h1]
  simp only
  rw [breakAtChar_of_not_mem '?' s h2]
  simp [joinSep]

/-- Evaluation of the normalisation on a url split as base, `?`, search. -/
theorem normChars_with_query (s t : List Char)
    (hs1 : '#' ∉ s) (hs2 : '?' ∉ s) (ht : '#' ∉ t) :
    normChars (s ++ '?' :: t)
      = s ++ (if joinSep '&' ((qsPairs t).map (fun kv => kv.1 ++ '=' :: kv.2)) = []
              then []
              else '?' :: joinSep '&' ((qsPairs t).map (fun kv => kv.1 ++ '=' :: kv.2))) := by
  have hall : '#' ∉ s ++ '?' :: t := by
    intro hmem
    rcases List.mem_append.mp hmem with hm | hm
    · exact hs1 hm
    · rcases List.mem_cons.mp hm with he | hm2
      · exact absurd he (by decide)
      · exact ht hm2
  unfold normChars rawQueryPairs
  rw [breakAtChar_of_not_mem '#' _ hall]
  simp only
  rw [breakAtChar_append '?' s t hs2]

/-- Character-level idempotence of the normalisation under the safety
hypothesis on the decoded query pairs. -/
theorem normChars_idem (l : List Char)
    (h : ∀ p ∈ rawQueryPairs l, safeKey p.1 = true ∧ safeVal p.2 = true) :
    normChars (normChars l) = normChars l := by
  have hbase_h : '#' ∉ (breakAtChar '?' ((breakAtChar '#' l).1)).1 :=
    fun hm => breakAtChar_fst_not_mem '#' l (breakAtChar_fst_subset '?' '#' _ hm)
  have hbase_q : '?' ∉ (breakAtChar '?' ((breakAtChar '#' l).1)).1 :=
    breakAtChar_fst_not_mem '?' _
  cases hp : rawQueryPairs l with
  | nil =>
    have h1 : normChars l = (breakAtChar '?' ((breakAtChar '#' l).1)).1 := by
      unfold normChars
      rw [hp]
      simp [joinSep]
    rw [h1]
    exact normChars_no_query _ hbase_h hbase_q
  | cons p ps =>
    have hsafe : ∀ q ∈ p :: ps, safeKey q.1 = true ∧ safeVal q.2 = true := by
      rw [hp] at h
      exact h
    have hJne : joinSep '&' ((p :: ps).map (fun kv => kv.1 ++ '=' :: kv.2)) ≠ [] := by
      rw [show (p :: ps).map (fun kv => kv.1 ++ '=' :: kv.2)
            = (p.1 ++ '=' :: p.2) :: ps.map (fun kv => kv.1 ++ '=' :: kv.2) from rfl]
      exact joinSep_ne_nil '&' _ _ (append_cons_ne_nil p.1 '=' p.2)
    have hJh : '#' ∉ joinSep '&' ((p :: ps).map (fun kv => kv.1 ++ '=' :: kv.2)) := by
      intro hm
      rcases mem_joinSep '&' '#' _ hm with he | ⟨s, hsmem, hxs⟩
      · exact absurd he (by decide)
      · rcases List.mem_map.mp hsmem with ⟨kv, hkv, rfl⟩
        rcases List.mem_append.mp hxs with hkm | hvm
        · exact ((safeKey_spec (hsafe kv hkv).1) '#' hkm).2.1 rfl
        · rcases List.mem_cons.mp hvm with he | hv2
          · exact absurd he (by decide)
          · exact ((safeVal_spec (hsafe kv hkv).2) '#' hv2).2.1 rfl
    have h1 : normChars l
        = (breakAtChar '?' ((breakAtChar '#' l).1)).1
          ++ '?' :: joinSep '&' ((p :: ps).map (fun kv => kv.1 ++ '=' :: kv.2)) := by
      unfold normChars
      rw [hp, if_neg hJne]
    have hround : qsPairs (joinSep '&' ((p :: ps).map (fun kv => kv.1 ++ '=' :: kv.2)))
        = p :: ps := by
      refine qsPairs_roundtrip (p :: ps) ?_ hsafe (List.cons_ne_nil p ps)
      rw [← hp]
      exact rawQueryPairs_distinct l
    rw [h1, normChars_with_query _ _ hbase_h hbase_q hJh, hround, if_neg hJne]

/-- C4 counterexample: `_normalizeUrl` is not idempotent.  On
`https://a.com/p?x=a%26b` the first pass decodes the value to `a&b`; the
second pass re-splits that output on the bare `&`, reading a new key `b` with
empty value, so a second application changes the url again. -/
theorem normalizeUrl_not_idempotent :
    normalizeUrl "https://a.com/p?x=a%26b" = "https://a.com/p?x=a&b"
    ∧ normalizeUrl (normalizeUrl "https://a.com/p?x=a%26b") = "https://a.com/p?x=a&b="
    ∧ normalizeUrl (normalizeUrl "https://a.com/p?x=a%26b")
        ≠ normalizeUrl "https://a.com/p?x=a%26b" :=
  ⟨by decide, by decide, by decide⟩

/-- C4 (amended): `_normalizeUrl` is idempotent on every url whose decoded
query pairs survive re-parsing, namely when no decoded key or value contains
`&`, `#`, `%` or `+` and no decoded key contains `=`. -/
theorem normalizeUrl_idempotent_of_safe (u : String)
    (h : ∀ p ∈ urlQueryPairs u, safeKey p.1 = true ∧ safeVal p.2 = true) :
    normalizeUrl (normalizeUrl u) = normalizeUrl u := by
  show String.mk (normChars (normChars u.data)) = String.mk (normChars u.data)
  rw [normChars_idem u.data h]

/-- Witness for C4 (amended): the safety hypothesis holds on
`https://a.com/p?x=1&y=2#frag` and the theorem applies there. -/
theorem normalizeUrl_idempotent_of_safe_witness :
    normalizeUrl (normalizeUrl "https://a.com/p?x=1&y=2#frag")
      = normalizeUrl "https://a.com/p?x=1&y=2#frag" :=
  normalizeUrl_idempotent_of_safe "https://a.com/p?x=1&y=2#frag" (by decide)

/-- C5: `_normalizeUrl` drops the fragment and re-appends the query as
decoded `key=value` pairs: the claim's example keeps query `x=1` and loses
`#frag`, and a percent-encoded value such as `%2F` comes back un-encoded. -/
theorem normalizeUrl_strips_fragment_decodes_query :
    normalizeUrl "https://a.com/p?x=1#frag" = "https://a.com/p?x=1"
    ∧ normalizeUrl "https://a.com/p?x=%2Fv#f" = "https://a.com/p?x=/v" :=
  ⟨by decide, by decide⟩

/-! ## SHA-1 and the JS API signature (`Client.getJSApiConfig`, lines 558-578)

The signing routine is `crypto.createHash('sha1')` over the UTF-8 bytes of the
serialized record, hex-encoded.  SHA-1 is implemented below on `Nat` with
explicit reduction modulo `2 ^ 32`; bytes are `Nat` values below 256. -/

/-- The 32-bit modulus. -/
def UMOD : Nat := 4294967296

/-- Left rotation of a 32-bit word. -/
def rotl (n x : Nat) : Nat :=
  ((x <<< n) % UMOD) ||| (x >>> (32 - n))

/-- The eight big-endian bytes of a 64-bit length field. -/
def be64 (n : Nat) : List Nat :=
  [(n >>> 56) % 256, (n >>> 48) % 256, (n >>> 40) % 256, (n >>> 32) % 256,
   (n >>> 24) % 256, (n >>> 16) % 256, (n >>> 8) % 256, n % 256]

/-- SHA-1 padding: a `0x80` byte, zeros up to 56 modulo 64, then the message
length in bits as eight big-endian bytes. -/
def sha1Pad (msg : List Nat) : List Nat :=
  msg ++ 128 :: List.replicate ((119 - msg.length % 64) % 64) 0
      ++ be64 (msg.length * 8)

/-- Four big-endian bytes at a time into 32-bit words. -/
def bytesToWords : List Nat → List Nat
  | a :: b :: c :: d :: rest => (((a * 256 + b) * 256 + c) * 256 + d) :: bytesToWords rest
  | _ => []

def chunk64Aux : Nat → List Nat → List (List Nat)
  | _, [] => []
  | 0, l => [l]
  | fuel + 1, x :: xs => ((x :: xs).take 64) :: chunk64Aux fuel (xs.drop 63)

/-- The 64-byte blocks of a padded message. -/
def chunk64 (l : List Nat) : List (List Nat) :=
  chunk64Aux l.length l

def extendWordsAux : Nat → List Nat → List Nat
  | 0, w => w
  | fuel + 1, w =>
    extendWordsAux fuel
      (w ++ [rotl 1 ((w.getD (w.length - 3) 0) ^^^ (w.getD (w.length - 8) 0)
                      ^^^ (w.getD (w.length - 14) 0) ^^^ (w.getD (w.length - 16) 0))])

/-- Extend the sixteen block words to the eighty-word message schedule. -/
def extendTo80 (w : List Nat) : List Nat :=
  extendWordsAux 64 w

/-- One round of the SHA-1 compression function. -/
def sha1Round (i wi : Nat) (st : Nat × Nat × Nat × Nat × Nat) :
    Nat × Nat × Nat × Nat × Nat :=
  let (a, b, c, d, e) := st
  let f :=
    if i < 20 then (b &&& c) ||| ((b ^^^ 4294967295) &&& d)
    else if i < 40 then b ^^^ c ^^^ d
    else if i < 60 then (b &&& c) ||| (b &&& d) ||| (c &&& d)
    else b ^^^ c ^^^ d
  let k :=
    if i < 20 then 1518500249
    else if i < 40 then 1859775393
    else if i < 60 then 2400959708
    else 3395469782
  ((rotl 5 a + f + e + k + wi) % UMOD, a, rotl 30 b, c, d)

/-- Process one 64-byte block. -/
def sha1Compress (h5 : Nat × Nat × Nat × Nat × Nat) (block : List Nat) :
    Nat × Nat × Nat × Nat × Nat :=
  let w := extendTo80 (bytesToWords block)
  let st := w.enum.foldl (fun st iw => sha1Round iw.1 iw.2 st) h5
  match h5, st with
  | (h0, h1, h2, h3, h4), (a, b, c, d, e) =>
    ((h0 + a) % UMOD, (h1 + b) % UMOD, (h2 + c) % UMOD, (h3 + d) % UMOD,
     (h4 + e) % UMOD)

/-- A lowercase hexadecimal digit. -/
def hexDigit (n : Nat) : Char :=
  if n < 10 then Char.ofNat (48 + n) else Char.ofNat (87 + n)

/-- Eight lowercase hex digits of a 32-bit word, most significant first. -/
def hex8 (n : Nat) : String :=
  String.mk ((List.range 8).map (fun i => hexDigit ((n >>> ((7 - i) * 4)) &&& 15)))

/-- The hex-encoded SHA-1 digest of a byte list. -/
def sha1Hex (msg : List Nat) : String :=
  match (chunk64 (sha1Pad msg)).foldl sha1Compress
      (1732584193, 4023233417, 2562383102, 271733878, 3285377520) with
  | (h0, h1, h2, h3, h4) => hex8 h0 ++ hex8 h1 ++ hex8 h2 ++ hex8 h3 ++ hex8 h4

/-- The UTF-8 bytes of a character. -/
def utf8Bytes (c : Char) : List Nat :=
  let n := c.toNat
  if n < 128 then [n]
  else if n < 2048 then [192 + n / 64, 128 + n % 64]
  else if n < 65536 then [224 + n / 4096, 128 + (n / 64) % 64, 128 + n % 64]
  else [240 + n / 262144, 128 + (n / 4096) % 64, 128 + (n / 64) % 64, 128 + n % 64]

/-- The UTF-8 bytes of a string. -/
def strBytes (s : String) : List Nat :=
  s.data.flatMap utf8Bytes

/-- The routine `crypto.createHash('sha1').update(str, 'utf8').digest('hex')`
used at `message.js` lines 568-570. -/
def sha1HexOfString (s : String) : String :=
  sha1Hex (strBytes s)

/-- Sanity check of the SHA-1 embedding against the published test vector for
the string `abc`. -/
theorem sha1HexOfString_abc :
    sha1HexOfString "abc" = "a9993e364706816aba3e25717850c26c9cd0d89d" := by
  decide

/-- The last binding wins, as with repeated `Object.assign` sources. -/
def lastLookup (l : List (String × String)) (k : String) : Option String :=
  (l.reverse.find? (fun p => p.1 == k)).map (fun p => p.2)

/-- JavaScript `Object.assign({...base}, extra)` on string-valued records with
distinct keys per record: values of keys already in `base` are overwritten in
place, keys new in `extra` are appended in their order. -/
def objAssign (base extra : List (String × String)) : List (String × String) :=
  base.map (fun p => (p.1, (lastLookup extra p.1).getD p.2))
    ++ extra.filter (fun p => !(base.any (fun q => q.1 == p.1)))

def charListLt : List Char → List Char → Bool
  | [], [] => false
  | [], _ :: _ => true
  | _ :: _, [] => false
  | a :: as, b :: bs =>
    if a.toNat < b.toNat then true
    else if b.toNat < a.toNat then false
    else charListLt as bs

/-- Lexicographic string order on code units, as JavaScript default `sort`
compares strings. -/
def strLt (a b : String) : Bool :=
  charListLt a.data b.data

def insertByKey (p : String × String) :
    List (String × String) → List (String × String)
  | [] => [p]
  | q :: qs => if strLt q.1 p.1 then q :: insertByKey p qs else p :: q :: qs

/-- The record in ascending key order, as `Object.keys(signObj).sort()`
iterates it. -/
def sortByKey (l : List (String × String)) : List (String × String) :=
  l.foldr insertByKey []

/-- JavaScript `Array.prototype.join('&')`. -/
def joinAmp : List String → String
  | [] => ""
  | [s] => s
  | s :: ss => s ++ "&" ++ joinAmp ss

/-- The record `getJSApiConfig` returns. -/
structure JSApiConfig where
  corpId : String
  timeStamp : String
  nonceStr : String
  signature : String
deriving DecidableEq, Repr

/-- Embedding of `Client.getJSApiConfig` (`message.js` lines 558-578).
`corpid` is `this.options.corpid`, `ticket` the value the credential cache
produced, `now` the `Date.now()` value of the call, and `opts` the caller
options merged over the defaults by `Object.assign`; JavaScript numbers in
the record are modelled by their decimal strings, which is how they enter the
serialized `key=value` signing string. -/
def getJSApiConfig (corpid ticket : String) (now : Int) (url : String)
    (opts : List (String × String)) : JSApiConfig :=
  let signObj := objAssign
    [("jsapi_ticket", ticket),
     ("noncestr", "DingTalk#" ++ toString now),
     ("timestamp", toString now),
     ("url", normalizeUrl url)] opts
  let signContent := (sortByKey signObj).map (fun p => p.1 ++ "=" ++ p.2)
  { corpId := corpid,
    timeStamp := (lastLookup signObj "timestamp").getD "",
    nonceStr := (lastLookup signObj "noncestr").getD "",
    signature := sha1HexOfString (joinAmp signContent) }

/-- C6: with the random inputs pinned through `opts`, `getJSApiConfig` signs
exactly the key-sorted, `&`-joined serialization of the record
`{ jsapi_ticket, noncestr, timestamp, url }`, hex-SHA-1 encodes it, and
returns `{ corpId, timeStamp, nonceStr, signature }`; the digest below equals
the SHA-1 of the serialized string (externally checkable). -/
theorem getJSApiConfig_shape_and_signature :
    getJSApiConfig "CORP" "T" 999 "https://a.com/p"
        [("noncestr", "N"), ("timestamp", "1000")]
      = { corpId := "CORP", timeStamp := "1000", nonceStr := "N",
          signature :=
            sha1HexOfString "jsapi_ticket=T&noncestr=N&timestamp=1000&url=https://a.com/p" }
    ∧ sha1HexOfString "jsapi_ticket=T&noncestr=N&timestamp=1000&url=https://a.com/p"
        = "6ff96a838625b083d1c776fbd99d99f43476bebe" :=
  ⟨by decide, by decide⟩

/-- C7: `getJSApiConfig` is deterministic once the random inputs are pinned:
with `opts` fixing `noncestr` and `timestamp`, the clock value of the call
does not influence the returned record, so two calls with the same ticket,
url and opts return equal signatures. -/
theorem getJSApiConfig_deterministic (corpid ticket url : String) (now1 now2 : Int) :
    getJSApiConfig corpid ticket now1 url [("noncestr", "N"), ("timestamp", "1000")]
      = getJSApiConfig corpid ticket now2 url [("noncestr", "N"), ("timestamp", "1000")] :=
  rfl

end NodeDingtalk

